import Mathlib

/-!
Verification development for the `backend` repository (src/api/index.js):
a small Express HTTP backend for a home-service booking application with
flat-file JSON persistence (`users.json`, `bookings.json`, `services.json`).

Shallow embedding conventions:
* JS scalar values occurring in request bodies and stored records are
  modelled by `JVal` (null / boolean / number / string); JS numbers are
  modelled as `Int` (floats are out of scope of the embedding).
* A request body field that may be absent (`undefined` after
  destructuring) is an `Option JVal`.
* Each route handler becomes a pure function from the request data and the
  loaded collection snapshot to a response record and the resulting
  collection snapshot; the early-`return` chains of the JS code become
  nested matches/ifs in the same order.
* `crypto.createHash("sha256")....digest("hex")` is an external library
  function; the handlers are parameterised by `hash : String → String`.
  Calling it on a non-string value throws in JS; this is modelled by the
  500-response branches.
* The flat-file store (`loadData` / `saveData`) is modelled over an
  explicit file-system state `String → Option (List Char)` (`none` =
  absent/unreadable file), with a concrete model of `JSON.stringify(·,
  null, 2)` and `JSON.parse` over a JSON value type `Json`.
-/

/-- A JS scalar value as it appears in a parsed JSON request body or in a
stored record: `null`, a boolean, a number (modelled as `Int`) or a
string.  Equality of `JVal`s models JS strict equality `===` on these
values. -/
inductive JVal where
  | vNull : JVal
  | vBool (b : Bool) : JVal
  | vNum (n : Int) : JVal
  | vStr (s : String) : JVal
deriving DecidableEq, Repr

/-- JS truthiness of a scalar value: `null`, `false`, `0` and `""` are
falsy, everything else is truthy (`!x` in the JS validation code is the
negation of this). -/
def JVal.truthy : JVal → Bool
  | .vNull => false
  | .vBool b => b
  | .vNum n => n != 0
  | .vStr s => s != ""

/-- Truthiness of a possibly absent field: an absent field (`undefined`)
is falsy. -/
def truthyOpt : Option JVal → Bool
  | none => false
  | some v => v.truthy

/-- JS `x || d` for a possibly absent field `x`: the field's value if it
is present and truthy, otherwise the default `d`.  Used for the optional
booking fields (`price || 0`, `time || ''`, `notes || ''`,
`userId || null`). -/
def jsOr (x : Option JVal) (d : JVal) : JVal :=
  match x with
  | none => d
  | some v => if v.truthy then v else d

/-- A stored user record, as constructed by the signup handler:
`{ id, email, password: hashPassword(password), name, phone, createdAt }`.
The `password` field holds the hash digest (a string); `email`, `name`
and `phone` hold whatever scalar the client sent. -/
structure User where
  id : Int
  email : JVal
  password : String
  name : JVal
  phone : JVal
  createdAt : String
deriving DecidableEq, Repr

/-- A stored booking record, as constructed by the booking handler. -/
structure Booking where
  id : Int
  technicianId : JVal
  customerName : JVal
  phone : JVal
  address : JVal
  serviceType : JVal
  serviceId : JVal
  price : JVal
  date : JVal
  time : JVal
  notes : JVal
  userId : JVal
  createdAt : String
deriving DecidableEq, Repr

/-- The fresh-id expression shared by the signup and booking handlers:
`xs.length > 0 ? Math.max(...xs.map(r => r.id)) + 1 : 1`.
`Math.max` over a non-empty argument list is a left fold of the binary
maximum over the ids. -/
def nextId (ids : List Int) : Int :=
  match ids with
  | [] => 1
  | x :: xs => xs.foldl max x + 1

/-- Request body of `POST /api/signup` after destructuring
`{ email, password, name, phone }`; absent fields are `none`. -/
structure SignupReq where
  email : Option JVal
  password : Option JVal
  name : Option JVal
  phone : Option JVal
deriving DecidableEq, Repr

/-- Response of the signup handler: HTTP status, `message` body field,
and the `userId` body field when present. -/
structure SignupOut where
  status : Nat
  message : String
  userId : Option Int
deriving DecidableEq, Repr

/-- The `POST /api/signup` handler:
validate truthiness of the four fields (400), reject a duplicate email
(400), otherwise append `{ id: nextId, email, password: hash(password),
name, phone, createdAt: now }` and answer 201 with the new id.
Hashing a non-string password throws in JS and is caught by the
handler's `try`/`catch`, producing the 500 response; in that case the
collection is returned unchanged (the throw happens before `push`). -/
def signupHandler (hash : String → String) (now : String) (req : SignupReq)
    (users : List User) : SignupOut × List User :=
  match req.email, req.password, req.name, req.phone with
  | some e, some pw, some nm, some ph =>
    if e.truthy && pw.truthy && nm.truthy && ph.truthy then
      if (users.find? (fun u => u.email == e)).isSome then
        (⟨400, "Email already exists", none⟩, users)
      else
        match pw with
        | .vStr pws =>
          let uid := nextId (users.map User.id)
          (⟨201, "Sign-up successful", some uid⟩,
            users ++ [⟨uid, e, hash pws, nm, ph, now⟩])
        | _ => (⟨500, "Error during sign-up", none⟩, users)
    else (⟨400, "Missing required fields", none⟩, users)
  | _, _, _, _ => (⟨400, "Missing required fields", none⟩, users)

/-- Request body of `POST /api/signin` after destructuring
`{ email, password }`. -/
structure SigninReq where
  email : Option JVal
  password : Option JVal
deriving DecidableEq, Repr

/-- Response of the signin handler. -/
structure SigninOut where
  status : Nat
  message : String
  userId : Option Int
  name : Option JVal
deriving DecidableEq, Repr

/-- The search `users.find(u => u.email === email && u.password ===
hashPassword(password))`, with JS short-circuiting made explicit: the
hash is only computed when `u.email === email` holds, and hashing a
non-string password throws (`Except.error`), which the handler's
`catch` turns into a 500 response. -/
def findUserJS (hash : String → String) (e pw : JVal) :
    List User → Except Unit (Option User)
  | [] => .ok none
  | u :: us =>
    if u.email == e then
      match pw with
      | .vStr s =>
        if u.password == hash s then .ok (some u) else findUserJS hash e pw us
      | _ => .error ()
    else findUserJS hash e pw us

/-- The `POST /api/signin` handler: validate truthiness of both fields
(400), look up a user whose email matches and whose stored password hash
equals the hash of the supplied password; 401 when none matches, 200
with `{ userId, name }` otherwise.  The collection is never modified. -/
def signinHandler (hash : String → String) (req : SigninReq)
    (users : List User) : SigninOut :=
  match req.email, req.password with
  | some e, some pw =>
    if e.truthy && pw.truthy then
      match findUserJS hash e pw users with
      | .error _ => ⟨500, "Error during sign-in", none, none⟩
      | .ok none => ⟨401, "Invalid email or password", none, none⟩
      | .ok (some u) => ⟨200, "Sign-in successful", some u.id, some u.name⟩
    else ⟨400, "Missing email or password", none, none⟩
  | _, _ => ⟨400, "Missing email or password", none, none⟩

/-- Request body of `POST /api/book` after destructuring. -/
structure BookReq where
  technicianId : Option JVal
  customerName : Option JVal
  phone : Option JVal
  address : Option JVal
  serviceType : Option JVal
  serviceId : Option JVal
  price : Option JVal
  date : Option JVal
  time : Option JVal
  notes : Option JVal
  userId : Option JVal
deriving DecidableEq, Repr

/-- Response of the booking handler: status, `message`, and the created
`booking` body field when present. -/
structure BookOut where
  status : Nat
  message : String
  booking : Option Booking
deriving DecidableEq, Repr

/-- The `POST /api/book` handler: validate truthiness of the seven
required fields (400); otherwise append the booking record with the
fresh id, defaulted optional fields, and answer 201 with the booking. -/
def bookHandler (now : String) (req : BookReq) (bookings : List Booking) :
    BookOut × List Booking :=
  match req.technicianId, req.customerName, req.phone, req.address,
      req.serviceType, req.serviceId, req.date with
  | some tid, some cn, some ph, some ad, some st, some sid, some dt =>
    if tid.truthy && cn.truthy && ph.truthy && ad.truthy && st.truthy &&
        sid.truthy && dt.truthy then
      let b : Booking :=
        ⟨nextId (bookings.map Booking.id), tid, cn, ph, ad, st, sid,
          jsOr req.price (.vNum 0), dt, jsOr req.time (.vStr ""),
          jsOr req.notes (.vStr ""), jsOr req.userId .vNull, now⟩
      (⟨201, "Booking confirmed!", some b⟩, bookings ++ [b])
    else (⟨400, "Missing required fields for booking", none⟩, bookings)
  | _, _, _, _, _, _, _ =>
    (⟨400, "Missing required fields for booking", none⟩, bookings)

/-- JS whitespace accepted by `parseInt` before the number. -/
def isJsSpace (c : Char) : Bool :=
  c = ' ' || c = '\t' || c = '\n' || c = '\r' || c = '\x0b' || c = '\x0c'

/-- Value of a maximal run of decimal digit characters. -/
def decimalDigitsVal (l : List Char) : Nat :=
  l.foldl (fun a c => 10 * a + (c.toNat - 48)) 0

/-- Hexadecimal digit test (for `parseInt`'s `0x` prefix handling). -/
def isHexDigitJS (c : Char) : Bool :=
  c.isDigit || ('a' ≤ c && c ≤ 'f') || ('A' ≤ c && c ≤ 'F')

/-- Value of one hexadecimal digit character. -/
def hexCharVal (c : Char) : Nat :=
  if c.isDigit then c.toNat - 48
  else if 'a' ≤ c then c.toNat - 87
  else c.toNat - 55

/-- Value of a maximal run of hexadecimal digit characters. -/
def hexDigitsVal (l : List Char) : Nat :=
  l.foldl (fun a c => 16 * a + hexCharVal c) 0

/-- JS `parseInt(s)` with no radix argument, restricted to integer
results: skip leading whitespace, accept an optional sign, then either a
`0x`/`0X` hexadecimal literal or a maximal run of decimal digits;
trailing garbage is ignored; `none` models the `NaN` result when no
digit can be parsed. -/
def parseIntJS (s : String) : Option Int :=
  let cs := s.data.dropWhile isJsSpace
  let sgn : Int := match cs with
    | '-' :: _ => -1
    | _ => 1
  let cs2 : List Char := match cs with
    | '-' :: r => r
    | '+' :: r => r
    | _ => cs
  match cs2 with
  | '0' :: x :: r =>
    if x = 'x' || x = 'X' then
      let ds := r.takeWhile isHexDigitJS
      if ds = [] then none else some (sgn * (hexDigitsVal ds : Int))
    else
      some (sgn * (decimalDigitsVal (('0' :: x :: r).takeWhile Char.isDigit) : Int))
  | _ =>
    let ds := cs2.takeWhile Char.isDigit
    if ds = [] then none else some (sgn * (decimalDigitsVal ds : Int))

/-- The `{ id, email, name, phone }` projection returned by
`GET /api/user/:id`. -/
structure PublicUser where
  id : Int
  email : JVal
  name : JVal
  phone : JVal
deriving DecidableEq, Repr

/-- Response of the `GET /api/user/:id` handler. -/
structure GetUserOut where
  status : Nat
  message : String
  body : Option PublicUser
deriving DecidableEq, Repr

/-- The `GET /api/user/:id` handler: `parseInt` the path parameter (400
on `NaN`), look the user up by id (404 when absent), otherwise 200 with
exactly the `{ id, email, name, phone }` fields. -/
def getUserHandler (idParam : String) (users : List User) : GetUserOut :=
  match parseIntJS idParam with
  | none => ⟨400, "Invalid user ID", none⟩
  | some uid =>
    match users.find? (fun u => u.id == uid) with
    | none => ⟨404, "User not found", none⟩
    | some u => ⟨200, "", some ⟨u.id, u.email, u.name, u.phone⟩⟩

/-- Response of the `GET /api/user/:id/bookings` handler. -/
structure BookingsOut where
  status : Nat
  message : String
  bookings : Option (List Booking)
deriving DecidableEq, Repr

/-- The `GET /api/user/:id/bookings` handler: `parseInt` the path
parameter (400 on `NaN`), otherwise 200 with
`bookings.filter(b => b.userId === userId)`. -/
def getUserBookingsHandler (idParam : String) (bookings : List Booking) :
    BookingsOut :=
  match parseIntJS idParam with
  | none => ⟨400, "Invalid user ID", none⟩
  | some uid =>
    ⟨200, "", some (bookings.filter (fun b => b.userId == JVal.vNum uid))⟩

/-! ### The flat-file store: JSON values, `JSON.stringify(·, null, 2)`,
`JSON.parse`, `loadData`, `saveData`.

JSON numbers are modelled as `Int` (the snapshots this backend writes
hold ids, prices and strings); the parser model accordingly rejects
fraction/exponent forms, which the printer model never emits.  File
contents are modelled as `List Char`. -/

/-- A JSON document value: the in-memory snapshot shape that
`JSON.parse` produces and `JSON.stringify` consumes. -/
inductive Json where
  | jNull : Json
  | jBool (b : Bool) : Json
  | jNum (n : Int) : Json
  | jStr (s : List Char) : Json
  | jArr (xs : List Json) : Json
  | jObj (fs : List (List Char × Json)) : Json

/-- Lower-case hexadecimal digit character (for `\u00XX` escapes). -/
def hexDigChar (n : Nat) : Char :=
  Char.ofNat (if n < 10 then 48 + n else 87 + n)

/-- Escaping of one string character as in `JSON.stringify`: `"` and `\`
get a backslash, the five short control escapes are used when they
exist, the remaining control characters (code points below 0x20) become
`\u00XX`, and every other character is emitted literally. -/
def escChar (c : Char) : List Char :=
  if c = '"' then ['\\', '"']
  else if c = '\\' then ['\\', '\\']
  else if c = '\n' then ['\\', 'n']
  else if c = '\t' then ['\\', 't']
  else if c = '\r' then ['\\', 'r']
  else if c = '\x08' then ['\\', 'b']
  else if c = '\x0c' then ['\\', 'f']
  else if c.toNat < 32 then
    ['\\', 'u', '0', '0', hexDigChar (c.toNat / 16), hexDigChar (c.toNat % 16)]
  else [c]

/-- Escape a whole string body (no surrounding quotes). -/
def escStr (s : List Char) : List Char :=
  s.foldr (fun c acc => escChar c ++ acc) []

/-- Decimal digit character. -/
def digitChar10 (d : Nat) : Char := Char.ofNat (48 + d)

/-- Decimal notation of a natural number, big-endian. -/
def printNat (n : Nat) : List Char :=
  if n = 0 then ['0'] else ((Nat.digits 10 n).reverse).map digitChar10

/-- Decimal notation of an integer. -/
def printInt (n : Int) : List Char :=
  if n < 0 then '-' :: printNat n.natAbs else printNat n.natAbs

/-- The indentation prefix `JSON.stringify(·, null, 2)` writes at
nesting depth `i`.  -/
def indentJ (i : Nat) : List Char := List.replicate (2 * i) ' '

mutual

/-- Rendering of `JSON.stringify(v, null, 2)` at nesting depth `i`: empty arrays and
objects print as `[]`/`{}`; non-empty ones put every element on its own
indented line, and object fields print as `"key": value`. -/
def strJ : Nat → Json → List Char
  | _, .jNull => ['n', 'u', 'l', 'l']
  | _, .jBool true => ['t', 'r', 'u', 'e']
  | _, .jBool false => ['f', 'a', 'l', 's', 'e']
  | _, .jNum n => printInt n
  | _, .jStr s => '"' :: (escStr s ++ ['"'])
  | _, .jArr [] => ['[', ']']
  | i, .jArr (x :: xs) =>
    '[' :: '\n' :: (indentJ (i + 1) ++ (strJ (i + 1) x ++ (strElems i xs ++
      '\n' :: (indentJ i ++ [']']))))
  | _, .jObj [] => ['\x7b', '\x7d']
  | i, .jObj ((k, v) :: fs) =>
    '\x7b' :: '\n' :: (indentJ (i + 1) ++ ('"' :: (escStr k ++ '"' :: ':' ::
      ' ' :: strJ (i + 1) v)) ++ (strFields i fs ++
      '\n' :: (indentJ i ++ ['\x7d'])))

/-- The `,\n<indent>element` continuation lines of a non-empty array. -/
def strElems : Nat → List Json → List Char
  | _, [] => []
  | i, x :: xs =>
    ',' :: '\n' :: (indentJ (i + 1) ++ (strJ (i + 1) x ++ strElems i xs))

/-- The `,\n<indent>"key": value` continuation lines of a non-empty
object. -/
def strFields : Nat → List (List Char × Json) → List Char
  | _, [] => []
  | i, (k, v) :: fs =>
    ',' :: '\n' :: (indentJ (i + 1) ++ ('"' :: (escStr k ++ '"' :: ':' ::
      ' ' :: strJ (i + 1) v)) ++ strFields i fs)

end

/-- The whitespace characters `JSON.parse` skips between tokens. -/
def isWsJ (c : Char) : Bool := c = ' ' || c = '\t' || c = '\n' || c = '\r'

/-- Skip inter-token whitespace. -/
def skipWs (cs : List Char) : List Char := cs.dropWhile isWsJ

/-- Match an expected literal character sequence (for `true`, `false`,
`null`). -/
def expectL : List Char → List Char → Option (List Char)
  | [], cs => some cs
  | _ :: _, [] => none
  | p :: ps, c :: cs => if c = p then expectL ps cs else none

/-- Numeric value of a run of decimal digit characters. -/
def digitVal (l : List Char) : Nat :=
  l.foldl (fun a c => 10 * a + (c.toNat - 48)) 0

/-- Parse the digit run of a JSON number (the integer fragment of the
grammar; a following `.`/`e`/`E` would start a fraction or exponent,
which the `Int`-valued model does not support and rejects). -/
def pNum (cs : List Char) : Option (Nat × List Char) :=
  let ds := cs.takeWhile Char.isDigit
  let rest := cs.dropWhile Char.isDigit
  if ds = [] then none
  else
    match rest with
    | [] => some (digitVal ds, [])
    | c :: _ =>
      if c = '.' || c = 'e' || c = 'E' then none else some (digitVal ds, rest)

/-- Boundary condition after a printed number: the next character (if
any) must not extend the number. -/
def numBd (cs : List Char) : Bool :=
  match cs with
  | [] => true
  | c :: _ => !(c.isDigit || c = '.' || c = 'e' || c = 'E')

/-- The single-character JSON string escapes. -/
def unescChar (e : Char) : Option Char :=
  if e = '"' then some '"'
  else if e = '\\' then some '\\'
  else if e = '/' then some '/'
  else if e = 'n' then some '\n'
  else if e = 't' then some '\t'
  else if e = 'r' then some '\r'
  else if e = 'b' then some '\x08'
  else if e = 'f' then some '\x0c'
  else none

/-- Parse a JSON string body after the opening quote, unescaping, up to
and including the closing quote; raw control characters are rejected as
in `JSON.parse`. -/
def pStr : List Char → Option (List Char × List Char)
  | [] => none
  | c :: r =>
    if c = '"' then some ([], r)
    else if c = '\\' then
      match r with
      | [] => none
      | e :: r2 =>
        if e = 'u' then
          match r2 with
          | a :: b :: c2 :: d :: r3 =>
            if isHexDigitJS a && isHexDigitJS b && isHexDigitJS c2 &&
                isHexDigitJS d then
              match pStr r3 with
              | some (s, r4) =>
                some (Char.ofNat (((hexCharVal a * 16 + hexCharVal b) * 16 +
                  hexCharVal c2) * 16 + hexCharVal d) :: s, r4)
              | none => none
            else none
          | _ => none
        else
          match unescChar e with
          | some ch =>
            match pStr r2 with
            | some (s, r3) => some (ch :: s, r3)
            | none => none
          | none => none
    else if c.toNat < 32 then none
    else
      match pStr r with
      | some (s, r2) => some (c :: s, r2)
      | none => none

mutual

/-- Parse one JSON value (fuelled recursive-descent model of
`JSON.parse`'s grammar, dispatching on the first non-whitespace
character). -/
def pVal : Nat → List Char → Option (Json × List Char)
  | 0, _ => none
  | fuel + 1, cs =>
    match skipWs cs with
    | [] => none
    | c :: r =>
      if c = '"' then
        match pStr r with
        | some (s, r2) => some (.jStr s, r2)
        | none => none
      else if c = '[' then
        match skipWs r with
        | [] => none
        | d :: r2 =>
          if d = ']' then some (.jArr [], r2)
          else
            match pElems fuel r with
            | some (xs, r3) => some (.jArr xs, r3)
            | none => none
      else if c = '\x7b' then
        match skipWs r with
        | [] => none
        | d :: r2 =>
          if d = '\x7d' then some (.jObj [], r2)
          else
            match pFields fuel r with
            | some (fs, r3) => some (.jObj fs, r3)
            | none => none
      else if c = 't' then
        match expectL ['r', 'u', 'e'] r with
        | some r2 => some (.jBool true, r2)
        | none => none
      else if c = 'f' then
        match expectL ['a', 'l', 's', 'e'] r with
        | some r2 => some (.jBool false, r2)
        | none => none
      else if c = 'n' then
        match expectL ['u', 'l', 'l'] r with
        | some r2 => some (.jNull, r2)
        | none => none
      else if c = '-' then
        match pNum r with
        | some (m, r2) => some (.jNum (-(m : Int)), r2)
        | none => none
      else if c.isDigit then
        match pNum (c :: r) with
        | some (m, r2) => some (.jNum (m : Int), r2)
        | none => none
      else none

/-- Parse the elements of a non-empty array, consuming the closing
bracket. -/
def pElems : Nat → List Char → Option (List Json × List Char)
  | 0, _ => none
  | fuel + 1, cs =>
    match pVal fuel cs with
    | none => none
    | some (v, r) =>
      match skipWs r with
      | [] => none
      | d :: r2 =>
        if d = ',' then
          match pElems fuel r2 with
          | some (xs, r3) => some (v :: xs, r3)
          | none => none
        else if d = ']' then some ([v], r2)
        else none

/-- Parse the fields of a non-empty object, consuming the closing
brace. -/
def pFields : Nat → List Char → Option (List (List Char × Json) × List Char)
  | 0, _ => none
  | fuel + 1, cs =>
    match skipWs cs with
    | [] => none
    | c :: r =>
      if c = '"' then
        match pStr r with
        | none => none
        | some (k, r2) =>
          match skipWs r2 with
          | [] => none
          | d :: r3 =>
            if d = ':' then
              match pVal fuel r3 with
              | none => none
              | some (v, r4) =>
                match skipWs r4 with
                | [] => none
                | d2 :: r5 =>
                  if d2 = ',' then
                    match pFields fuel r5 with
                    | some (fs, r6) => some ((k, v) :: fs, r6)
                    | none => none
                  else if d2 = '\x7d' then some ([(k, v)], r5)
                  else none
            else none
      else none

end

/-- Model of `JSON.parse`: parse one value and require only trailing whitespace
after it.  The fuel `length + 1` suffices for any input the printer
produces (established below). -/
def parseJson (cs : List Char) : Option Json :=
  match pVal (cs.length + 1) cs with
  | some (v, r) => if skipWs r = [] then some v else none
  | none => none

/-- The empty collection `loadData` falls back to:
`file === 'services.json' ? {} : []`. -/
def emptyFor (file : String) : Json :=
  if file = "services.json" then .jObj [] else .jArr []

/-- The store read `loadData(file)` over an explicit file-system state (`none` models
an absent or unreadable file): a read failure, an empty file, and
unparsable content all degrade to the empty collection; it never
throws. -/
def loadData (fsState : String → Option (List Char)) (file : String) : Json :=
  match fsState file with
  | none => emptyFor file
  | some s =>
    if s = [] then emptyFor file
    else
      match parseJson s with
      | some v => v
      | none => emptyFor file

/-- The store write `saveData(file, data)`: overwrite the file wholesale with
`JSON.stringify(data, null, 2)` (top-level nesting depth 0).  A write
failure raises in the JS code (caught by the handlers as a 500); the
state transformer models the successful write. -/
def saveData (fsState : String → Option (List Char)) (file : String)
    (v : Json) : String → Option (List Char) :=
  fun f => if f = file then some (strJ 0 v) else fsState f

mutual

/-- Fuel measure for `pVal`: enough fuel to parse the printed form of a
value. -/
def sizeJ : Json → Nat
  | .jNull => 1
  | .jBool _ => 1
  | .jNum _ => 1
  | .jStr _ => 1
  | .jArr xs => 1 + sizeElems xs
  | .jObj fs => 1 + sizeFields fs

/-- Fuel measure for `pElems`. -/
def sizeElems : List Json → Nat
  | [] => 1
  | x :: xs => 1 + sizeJ x + sizeElems xs

/-- Fuel measure for `pFields`. -/
def sizeFields : List (List Char × Json) → Nat
  | [] => 1
  | (_, v) :: fs => 1 + sizeJ v + sizeFields fs

end

/-! ### Lemmas about the fresh-id computation -/

lemma le_foldl_max_init (xs : List Int) (x : Int) : x ≤ xs.foldl max x := by
  induction xs generalizing x with
  | nil => exact le_refl x
  | cons y ys ih =>
    calc x ≤ max x y := le_max_left x y
    _ ≤ ys.foldl max (max x y) := ih (max x y)

lemma le_foldl_max_mem (xs : List Int) (x a : Int) (h : a ∈ xs) :
    a ≤ xs.foldl max x := by
  induction xs generalizing x with
  | nil => cases h
  | cons y ys ih =>
    rcases List.mem_cons.mp h with rfl | hmem
    · calc a ≤ max x a := le_max_right x a
      _ ≤ ys.foldl max (max x a) := le_foldl_max_init ys (max x a)
    · exact ih (max x y) hmem

lemma foldl_max_mem (xs : List Int) (x : Int) :
    xs.foldl max x = x ∨ xs.foldl max x ∈ xs := by
  induction xs generalizing x with
  | nil => exact Or.inl rfl
  | cons y ys ih =>
    rcases ih (max x y) with h | h
    · rcases max_choice x y with hm | hm
      · exact Or.inl (by rw [List.foldl_cons, h, hm])
      · exact Or.inr (by rw [List.foldl_cons, h, hm]; exact List.mem_cons_self y ys)
    · exact Or.inr (List.mem_cons_of_mem y h)

lemma mem_lt_nextId (ids : List Int) (a : Int) (h : a ∈ ids) :
    a < nextId ids := by
  match ids with
  | [] => cases h
  | x :: xs =>
    show a < xs.foldl max x + 1
    rcases List.mem_cons.mp h with rfl | hmem
    · have := le_foldl_max_init xs a
      omega
    · have := le_foldl_max_mem xs x a hmem
      omega

lemma nextId_sub_one_mem (ids : List Int) (h : ids ≠ []) :
    nextId ids - 1 ∈ ids := by
  match ids with
  | [] => exact absurd rfl h
  | x :: xs =>
    show xs.foldl max x + 1 - 1 ∈ x :: xs
    have hmem := foldl_max_mem xs x
    rcases hmem with he | he
    · rw [show xs.foldl max x + 1 - 1 = xs.foldl max x by omega, he]
      exact List.mem_cons_self x xs
    · rw [show xs.foldl max x + 1 - 1 = xs.foldl max x by omega]
      exact List.mem_cons_of_mem x he

/-- Case analysis of the signup handler: either it leaves the collection
unchanged with a non-201 status, or it answers 201 and appends exactly
one record whose id is `nextId` of the snapshot's ids. -/
lemma signup_cases (hash : String → String) (now : String) (req : SignupReq)
    (users : List User) :
    ((signupHandler hash now req users).1.status ≠ 201 ∧
      (signupHandler hash now req users).2 = users) ∨
    ((signupHandler hash now req users).1.status = 201 ∧
      ∃ u, (signupHandler hash now req users).2 = users ++ [u] ∧
        u.id = nextId (users.map User.id)) := by
  rcases req with ⟨e, pw, nm, ph⟩
  cases e with
  | none => left; exact ⟨by simp [signupHandler], rfl⟩
  | some ev =>
  cases pw with
  | none => left; exact ⟨by simp [signupHandler], rfl⟩
  | some pwv =>
  cases nm with
  | none => left; exact ⟨by simp [signupHandler], rfl⟩
  | some nmv =>
  cases ph with
  | none => left; exact ⟨by simp [signupHandler], rfl⟩
  | some phv =>
  simp only [signupHandler]
  by_cases ht : (ev.truthy && pwv.truthy && nmv.truthy && phv.truthy) = true
  · rw [if_pos ht]
    by_cases hf : (users.find? (fun u => u.email == ev)).isSome = true
    · rw [if_pos hf]; left; exact ⟨by simp, rfl⟩
    · rw [if_neg hf]
      cases pwv with
      | vStr s => right; exact ⟨rfl, _, rfl, rfl⟩
      | vNull => left; exact ⟨by simp, rfl⟩
      | vBool b => left; exact ⟨by simp, rfl⟩
      | vNum n => left; exact ⟨by simp, rfl⟩
  · rw [if_neg ht]; left; exact ⟨by simp, rfl⟩

/-- Case analysis of the booking handler: either it leaves the collection
unchanged with status 400, or it answers 201 and appends exactly one
record whose id is `nextId` of the snapshot's ids. -/
lemma book_cases (now : String) (req : BookReq) (bookings : List Booking) :
    ((bookHandler now req bookings).1.status ≠ 201 ∧
      (bookHandler now req bookings).2 = bookings) ∨
    ((bookHandler now req bookings).1.status = 201 ∧
      ∃ b, (bookHandler now req bookings).2 = bookings ++ [b] ∧
        b.id = nextId (bookings.map Booking.id)) := by
  rcases req with ⟨tid, cn, ph, ad, st, sid, pr, dt, tm, nt, uid⟩
  cases tid with
  | none => left; exact ⟨by simp [bookHandler], rfl⟩
  | some tv =>
  cases cn with
  | none => left; exact ⟨by simp [bookHandler], rfl⟩
  | some cv =>
  cases ph with
  | none => left; exact ⟨by simp [bookHandler], rfl⟩
  | some pv =>
  cases ad with
  | none => left; exact ⟨by simp [bookHandler], rfl⟩
  | some av =>
  cases st with
  | none => left; exact ⟨by simp [bookHandler], rfl⟩
  | some sv =>
  cases sid with
  | none => left; exact ⟨by simp [bookHandler], rfl⟩
  | some iv =>
  cases dt with
  | none => left; exact ⟨by simp [bookHandler], rfl⟩
  | some dv =>
  simp only [bookHandler]
  by_cases ht : (tv.truthy && cv.truthy && pv.truthy && av.truthy &&
      sv.truthy && iv.truthy && dv.truthy) = true
  · rw [if_pos ht]; right; exact ⟨rfl, _, rfl, rfl⟩
  · rw [if_neg ht]; left; exact ⟨by simp, rfl⟩

/-! ### Claim theorems: ids -/

/-- C1: for every collection snapshot, the freshly assigned id of a new
record (in signup and in booking creation) is 1 when the snapshot is
empty, and otherwise one greater than the maximum id present in the
snapshot; for ids `{1,3,5}` the next id is 6, and on an empty collection
it is 1.  The last two conjuncts tie the handlers to `nextId`: whenever
signup or booking creation answers 201, the record appended to the
snapshot carries id `nextId` of the snapshot's ids. -/
theorem C1_id_assignment :
    nextId [] = 1 ∧ nextId [1, 3, 5] = 6 ∧
    (∀ ids : List Int, ids ≠ [] →
      (nextId ids - 1) ∈ ids ∧ ∀ a ∈ ids, a ≤ nextId ids - 1) ∧
    (∀ hash now req users, (signupHandler hash now req users).1.status = 201 →
      ∃ u, (signupHandler hash now req users).2 = users ++ [u] ∧
        u.id = nextId (users.map User.id)) ∧
    (∀ now req bookings, (bookHandler now req bookings).1.status = 201 →
      ∃ b, (bookHandler now req bookings).2 = bookings ++ [b] ∧
        b.id = nextId (bookings.map Booking.id)) := by
  refine ⟨rfl, by decide, ?_, ?_, ?_⟩
  · intro ids h
    refine ⟨nextId_sub_one_mem ids h, ?_⟩
    intro a ha
    have := mem_lt_nextId ids a ha
    omega
  · intro hash now req users h
    rcases signup_cases hash now req users with ⟨hne, _⟩ | ⟨_, hex⟩
    · exact absurd h hne
    · exact hex
  · intro now req bookings h
    rcases book_cases now req bookings with ⟨hne, _⟩ | ⟨_, hex⟩
    · exact absurd h hne
    · exact hex

/-- C1 witness: the general parts of `C1_id_assignment` instantiated at
the id snapshot `[2, 7]`, at a concrete valid signup on the empty user
collection, and at a concrete valid booking request. -/
theorem C1_id_assignment_witness :
    ((nextId [2, 7] - 1) ∈ ([2, 7] : List Int) ∧
      ∀ a ∈ ([2, 7] : List Int), a ≤ nextId [2, 7] - 1) ∧
    (∃ u, (signupHandler (fun s => s) "t"
        ⟨some (.vStr "e@x"), some (.vStr "p"), some (.vStr "n"),
          some (.vStr "0")⟩ []).2 = [] ++ [u] ∧
      u.id = nextId (([] : List User).map User.id)) ∧
    (∃ b, (bookHandler "t"
        ⟨some (.vNum 1), some (.vStr "c"), some (.vStr "p"),
          some (.vStr "a"), some (.vStr "s"), some (.vNum 2), none,
          some (.vStr "d"), none, none, none⟩ []).2 = [] ++ [b] ∧
      b.id = nextId (([] : List Booking).map Booking.id)) := by
  refine ⟨C1_id_assignment.2.2.1 [2, 7] (by decide), ?_, ?_⟩
  · exact C1_id_assignment.2.2.2.1 (fun s => s) "t"
      ⟨some (.vStr "e@x"), some (.vStr "p"), some (.vStr "n"),
        some (.vStr "0")⟩ [] (by decide)
  · exact C1_id_assignment.2.2.2.2 "t"
      ⟨some (.vNum 1), some (.vStr "c"), some (.vStr "p"),
        some (.vStr "a"), some (.vStr "s"), some (.vNum 2), none,
        some (.vStr "d"), none, none, none⟩ [] (by decide)

/-- C2: for every booking request in which at least one required field
(technicianId, customerName, phone, address, serviceType, serviceId,
date) is absent, the booking handler responds 400 and the bookings
collection is left unchanged. -/
theorem C2_book_missing_field :
    ∀ now req bookings,
      (req.technicianId = none ∨ req.customerName = none ∨
        req.phone = none ∨ req.address = none ∨ req.serviceType = none ∨
        req.serviceId = none ∨ req.date = none) →
      (bookHandler now req bookings).1.status = 400 ∧
      (bookHandler now req bookings).2 = bookings := by
  intro now req bookings h
  rcases req with ⟨tid, cn, ph, ad, st, sid, pr, dt, tm, nt, uid⟩
  cases tid <;> cases cn <;> cases ph <;> cases ad <;> cases st <;>
    cases sid <;> cases dt <;> simp_all [bookHandler]

/-- C2 witness: a booking request with `date` absent (all other required
fields present and truthy) is rejected with 400 and persists nothing. -/
theorem C2_book_missing_field_witness :
    (bookHandler "t"
      ⟨some (.vNum 1), some (.vStr "c"), some (.vStr "p"), some (.vStr "a"),
        some (.vStr "s"), some (.vNum 2), none, none, none, none,
        none⟩ []).1.status = 400 ∧
    (bookHandler "t"
      ⟨some (.vNum 1), some (.vStr "c"), some (.vStr "p"), some (.vStr "a"),
        some (.vStr "s"), some (.vNum 2), none, none, none, none,
        none⟩ []).2 = [] :=
  C2_book_missing_field "t"
    ⟨some (.vNum 1), some (.vStr "c"), some (.vStr "p"), some (.vStr "a"),
      some (.vStr "s"), some (.vNum 2), none, none, none, none, none⟩ []
    (by decide)

/-- C3: for every signup request whose email already occurs in the stored
user collection, the handler responds 400 and the user collection is left
unchanged. -/
theorem C3_signup_duplicate_email :
    ∀ hash now req users e, req.email = some e → (∃ u ∈ users, u.email = e) →
      (signupHandler hash now req users).1.status = 400 ∧
      (signupHandler hash now req users).2 = users := by
  intro hash now req users e he hdup
  rcases req with ⟨em, pw, nm, ph⟩
  cases he
  cases pw with
  | none => exact ⟨by simp [signupHandler], rfl⟩
  | some pwv =>
  cases nm with
  | none => exact ⟨by simp [signupHandler], rfl⟩
  | some nmv =>
  cases ph with
  | none => exact ⟨by simp [signupHandler], rfl⟩
  | some phv =>
  simp only [signupHandler]
  by_cases ht : (e.truthy && pwv.truthy && nmv.truthy && phv.truthy) = true
  · rw [if_pos ht]
    have hf : (users.find? (fun u => u.email == e)).isSome = true := by
      rw [List.find?_isSome]
      obtain ⟨u, hu, hue⟩ := hdup
      exact ⟨u, hu, by simp [hue]⟩
    rw [if_pos hf]
    exact ⟨rfl, rfl⟩
  · rw [if_neg ht]; exact ⟨rfl, rfl⟩

/-- C3 witness: signing up a second time with the email `"e@x"` already
stored is rejected with 400 and the collection is unchanged. -/
theorem C3_signup_duplicate_email_witness :
    (signupHandler (fun s => s) "t"
      ⟨some (.vStr "e@x"), some (.vStr "q"), some (.vStr "m"),
        some (.vStr "1")⟩
      [⟨1, .vStr "e@x", "p", .vStr "n", .vStr "0", "t"⟩]).1.status = 400 ∧
    (signupHandler (fun s => s) "t"
      ⟨some (.vStr "e@x"), some (.vStr "q"), some (.vStr "m"),
        some (.vStr "1")⟩
      [⟨1, .vStr "e@x", "p", .vStr "n", .vStr "0", "t"⟩]).2 =
      [⟨1, .vStr "e@x", "p", .vStr "n", .vStr "0", "t"⟩] :=
  C3_signup_duplicate_email (fun s => s) "t"
    ⟨some (.vStr "e@x"), some (.vStr "q"), some (.vStr "m"),
      some (.vStr "1")⟩
    [⟨1, .vStr "e@x", "p", .vStr "n", .vStr "0", "t"⟩] (.vStr "e@x") rfl
    ⟨⟨1, .vStr "e@x", "p", .vStr "n", .vStr "0", "t"⟩, by decide, rfl⟩

/-- C7: starting from any collection whose ids are unique, every signup
or booking creation preserves uniqueness of the ids, and whenever a
record is appended its id is strictly greater than every id already
present (so assigned ids are monotonically non-decreasing in assignment
order). -/
theorem C7_id_uniqueness_invariant :
    (∀ hash now req users,
      ((users.map User.id).Nodup →
        ((signupHandler hash now req users).2.map User.id).Nodup) ∧
      (∀ u, (signupHandler hash now req users).2 = users ++ [u] →
        ∀ v ∈ users, v.id < u.id)) ∧
    (∀ now req bookings,
      ((bookings.map Booking.id).Nodup →
        ((bookHandler now req bookings).2.map Booking.id).Nodup) ∧
      (∀ b, (bookHandler now req bookings).2 = bookings ++ [b] →
        ∀ v ∈ bookings, v.id < b.id)) := by
  constructor
  · intro hash now req users
    rcases signup_cases hash now req users with ⟨_, heq⟩ | ⟨_, w, hw, hid⟩
    · refine ⟨fun hd => by rw [heq]; exact hd, ?_⟩
      intro u hu
      rw [heq] at hu
      exact absurd hu (by simp)
    · constructor
      · intro hd
        rw [hw, List.map_append]
        refine List.Nodup.append hd (List.nodup_singleton _) ?_
        intro a ha hb
        simp only [List.map_cons, List.map_nil, List.mem_singleton] at hb
        subst hb
        have hlt := mem_lt_nextId (users.map User.id) _ ha
        rw [← hid] at hlt
        exact lt_irrefl _ hlt
      · intro u hu v hv
        rw [hw] at hu
        have : w = u := by simpa using hu
        subst this
        rw [hid]
        exact mem_lt_nextId (users.map User.id) v.id (List.mem_map_of_mem _ hv)
  · intro now req bookings
    rcases book_cases now req bookings with ⟨_, heq⟩ | ⟨_, w, hw, hid⟩
    · refine ⟨fun hd => by rw [heq]; exact hd, ?_⟩
      intro b hb
      rw [heq] at hb
      exact absurd hb (by simp)
    · constructor
      · intro hd
        rw [hw, List.map_append]
        refine List.Nodup.append hd (List.nodup_singleton _) ?_
        intro a ha hb
        simp only [List.map_cons, List.map_nil, List.mem_singleton] at hb
        subst hb
        have hlt := mem_lt_nextId (bookings.map Booking.id) _ ha
        rw [← hid] at hlt
        exact lt_irrefl _ hlt
      · intro b hb v hv
        rw [hw] at hb
        have : w = b := by simpa using hb
        subst this
        rw [hid]
        exact mem_lt_nextId (bookings.map Booking.id) v.id
          (List.mem_map_of_mem _ hv)

/-- C7 witness: on a two-user collection with distinct ids `[1, 3]`, a
valid signup preserves id uniqueness, and the record it appends has an
id greater than both existing ids. -/
theorem C7_id_uniqueness_invariant_witness :
    ((signupHandler (fun s => s) "t"
        ⟨some (.vStr "e@x"), some (.vStr "p"), some (.vStr "n"),
          some (.vStr "0")⟩
        [⟨1, .vStr "a", "h", .vStr "n", .vStr "0", "t"⟩,
          ⟨3, .vStr "b", "h", .vStr "n", .vStr "0", "t"⟩]).2.map
        User.id).Nodup ∧
    (∀ v ∈ ([⟨1, .vStr "a", "h", .vStr "n", .vStr "0", "t"⟩,
        ⟨3, .vStr "b", "h", .vStr "n", .vStr "0", "t"⟩] : List User),
      v.id < (⟨4, .vStr "e@x", "p", .vStr "n", .vStr "0", "t"⟩ : User).id) := by
  constructor
  · exact ((C7_id_uniqueness_invariant.1 (fun s => s) "t"
      ⟨some (.vStr "e@x"), some (.vStr "p"), some (.vStr "n"),
        some (.vStr "0")⟩
      [⟨1, .vStr "a", "h", .vStr "n", .vStr "0", "t"⟩,
        ⟨3, .vStr "b", "h", .vStr "n", .vStr "0", "t"⟩]).1 (by decide))
  · exact ((C7_id_uniqueness_invariant.1 (fun s => s) "t"
      ⟨some (.vStr "e@x"), some (.vStr "p"), some (.vStr "n"),
        some (.vStr "0")⟩
      [⟨1, .vStr "a", "h", .vStr "n", .vStr "0", "t"⟩,
        ⟨3, .vStr "b", "h", .vStr "n", .vStr "0", "t"⟩]).2
      ⟨4, .vStr "e@x", "p", .vStr "n", .vStr "0", "t"⟩ (by decide))

/-- C10: required-field validation in signup and booking is
truthiness-based: a request in which a required field is present but
falsy (e.g. `technicianId = 0`, `serviceId = 0`, or an empty-string
email, customerName or date) is answered with 400 exactly as if the
field were absent, and nothing is persisted. -/
theorem C10_truthiness_validation :
    (∀ hash now req users v,
      (req.email = some v ∨ req.password = some v ∨ req.name = some v ∨
        req.phone = some v) → v.truthy = false →
      (signupHandler hash now req users).1.status = 400 ∧
      (signupHandler hash now req users).2 = users) ∧
    (∀ now req bookings v,
      (req.technicianId = some v ∨ req.customerName = some v ∨
        req.phone = some v ∨ req.address = some v ∨
        req.serviceType = some v ∨ req.serviceId = some v ∨
        req.date = some v) → v.truthy = false →
      (bookHandler now req bookings).1.status = 400 ∧
      (bookHandler now req bookings).2 = bookings) := by
  constructor
  · intro hash now req users v h hv
    rcases req with ⟨em, pw, nm, ph⟩
    cases em <;> cases pw <;> cases nm <;> cases ph <;>
      simp_all [signupHandler]
    rcases h with rfl | rfl | rfl | rfl <;> simp_all
  · intro now req bookings v h hv
    rcases req with ⟨tid, cn, ph, ad, st, sid, pr, dt, tm, nt, uid⟩
    cases tid <;> cases cn <;> cases ph <;> cases ad <;> cases st <;>
      cases sid <;> cases dt <;> simp_all [bookHandler]
    rcases h with rfl | rfl | rfl | rfl | rfl | rfl | rfl <;> simp_all

/-- C10 witness: a booking request with `technicianId = 0` (present but
falsy; all other required fields truthy) is rejected with 400 and
persists nothing. -/
theorem C10_truthiness_validation_witness :
    (bookHandler "t"
      ⟨some (.vNum 0), some (.vStr "c"), some (.vStr "p"), some (.vStr "a"),
        some (.vStr "s"), some (.vNum 2), none, some (.vStr "d"), none,
        none, none⟩ []).1.status = 400 ∧
    (bookHandler "t"
      ⟨some (.vNum 0), some (.vStr "c"), some (.vStr "p"), some (.vStr "a"),
        some (.vStr "s"), some (.vNum 2), none, some (.vStr "d"), none,
        none, none⟩ []).2 = [] :=
  C10_truthiness_validation.2 "t"
    ⟨some (.vNum 0), some (.vStr "c"), some (.vStr "p"), some (.vStr "a"),
      some (.vStr "s"), some (.vNum 2), none, some (.vStr "d"), none,
      none, none⟩ [] (.vNum 0) (Or.inl rfl) (by decide)

/-- C9: `GET /api/user/:id/bookings` with a parsable id responds 200 with
exactly the stored bookings whose `userId` field equals the parsed
numeric path parameter, and in particular with the empty array (not an
error) when no booking matches. -/
theorem C9_user_bookings_filter :
    ∀ idParam bookings uid, parseIntJS idParam = some uid →
      (getUserBookingsHandler idParam bookings).status = 200 ∧
      (getUserBookingsHandler idParam bookings).bookings =
        some (bookings.filter (fun b => b.userId == JVal.vNum uid)) ∧
      ((∀ b ∈ bookings, b.userId ≠ JVal.vNum uid) →
        (getUserBookingsHandler idParam bookings).bookings = some []) := by
  intro idParam bookings uid h
  have e1 : getUserBookingsHandler idParam bookings =
      ⟨200, "", some (bookings.filter (fun b => b.userId == JVal.vNum uid))⟩ := by
    unfold getUserBookingsHandler
    rw [h]
  refine ⟨by rw [e1], by rw [e1], ?_⟩
  intro hall
  rw [e1]
  have : bookings.filter (fun b => b.userId == JVal.vNum uid) = [] := by
    rw [List.filter_eq_nil_iff]
    intro b hb
    simpa using hall b hb
  rw [this]

/-- C9 witness: for the id parameter `"7"` and a two-booking collection
in which only one booking has `userId === 7`, the handler answers 200
with exactly that booking; on the empty collection it answers the empty
array. -/
theorem C9_user_bookings_filter_witness :
    (getUserBookingsHandler "7"
      [⟨1, .vNum 1, .vStr "c", .vStr "p", .vStr "a", .vStr "s", .vNum 2,
          .vNum 0, .vStr "d", .vStr "", .vStr "", .vNum 7, "t"⟩,
        ⟨2, .vNum 1, .vStr "c", .vStr "p", .vStr "a", .vStr "s", .vNum 2,
          .vNum 0, .vStr "d", .vStr "", .vStr "", .vNull, "t"⟩]).status =
      200 ∧
    (getUserBookingsHandler "7"
      [⟨1, .vNum 1, .vStr "c", .vStr "p", .vStr "a", .vStr "s", .vNum 2,
          .vNum 0, .vStr "d", .vStr "", .vStr "", .vNum 7, "t"⟩,
        ⟨2, .vNum 1, .vStr "c", .vStr "p", .vStr "a", .vStr "s", .vNum 2,
          .vNum 0, .vStr "d", .vStr "", .vStr "", .vNull, "t"⟩]).bookings =
      some ([⟨1, .vNum 1, .vStr "c", .vStr "p", .vStr "a", .vStr "s",
          .vNum 2, .vNum 0, .vStr "d", .vStr "", .vStr "", .vNum 7,
          "t"⟩] : List Booking) ∧
    (getUserBookingsHandler "7" []).bookings = some [] := by
  have h := C9_user_bookings_filter "7"
    [⟨1, .vNum 1, .vStr "c", .vStr "p", .vStr "a", .vStr "s", .vNum 2,
        .vNum 0, .vStr "d", .vStr "", .vStr "", .vNum 7, "t"⟩,
      ⟨2, .vNum 1, .vStr "c", .vStr "p", .vStr "a", .vStr "s", .vNum 2,
        .vNum 0, .vStr "d", .vStr "", .vStr "", .vNull, "t"⟩] 7 (by decide)
  have h0 := C9_user_bookings_filter "7" [] 7 (by decide)
  refine ⟨h.1, ?_, h0.2.2 (by decide)⟩
  rw [h.2.1]
  decide

/-! ### C4: `GET /api/user/:id` -/

/-- C4 counterexample: the path parameter `"12abc"` is not a numeral
(it contains non-digit characters), so by the claim the handler should
respond 400; but `parseInt` extracts the leading integer 12, and with a
stored user of id 12 the handler responds 200, not 400. -/
theorem C4_counterexample :
    ("12abc".data.all Char.isDigit) = false ∧
    (getUserHandler "12abc"
      [⟨12, .vStr "a@b.c", "H", .vStr "Al", .vStr "1", "t"⟩]).status = 200 ∧
    (getUserHandler "12abc"
      [⟨12, .vStr "a@b.c", "H", .vStr "Al", .vStr "1", "t"⟩]).status ≠ 400 := by
  refine ⟨by decide, by decide, by decide⟩

/-- C4 (amended): `GET /api/user/:id` parses the id with `parseInt`
semantics: it responds 400 exactly when no leading integer can be parsed
from the path parameter (`parseInt` yields `NaN`); otherwise the parsed
leading integer is used for the lookup: 404 when no stored user has that
id, and 200 with exactly the fields `{id, email, name, phone}` of a
stored user with that id when one exists. -/
theorem C4_get_user_amended :
    ∀ idParam users,
      (parseIntJS idParam = none →
        getUserHandler idParam users = ⟨400, "Invalid user ID", none⟩) ∧
      (∀ uid, parseIntJS idParam = some uid →
        ((∀ u ∈ users, u.id ≠ uid) →
          (getUserHandler idParam users).status = 404) ∧
        ((∃ u ∈ users, u.id = uid) →
          (getUserHandler idParam users).status = 200 ∧
          ∃ u ∈ users, u.id = uid ∧
            (getUserHandler idParam users).body =
              some ⟨u.id, u.email, u.name, u.phone⟩)) := by
  intro idParam users
  constructor
  · intro h
    simp [getUserHandler, h]
  · intro uid h
    constructor
    · intro hnone
      have hf : users.find? (fun u => u.id == uid) = none := by
        rw [List.find?_eq_none]
        intro u hu
        simpa using hnone u hu
      simp [getUserHandler, h, hf]
    · intro hex
      have hf : (users.find? (fun u => u.id == uid)).isSome = true := by
        rw [List.find?_isSome]
        obtain ⟨u, hu, hid⟩ := hex
        exact ⟨u, hu, by simp [hid]⟩
      obtain ⟨w, hw⟩ := Option.isSome_iff_exists.mp hf
      have hmem := List.mem_of_find?_eq_some hw
      have hpw := List.find?_some hw
      have hwid : w.id = uid := by simpa using hpw
      have e1 : getUserHandler idParam users =
          ⟨200, "", some ⟨w.id, w.email, w.name, w.phone⟩⟩ := by
        simp [getUserHandler, h, hw]
      rw [e1]
      exact ⟨rfl, w, hmem, hwid, rfl⟩

/-- C4 witness: the amended characterisation applied at the non-numeric
parameter `"x"` (400), and at `"2"` against a collection holding users 1
and 2 (200 with `{id, email, name, phone}` of user 2) and against a
collection holding only user 1 (404). -/
theorem C4_get_user_amended_witness :
    getUserHandler "x" [] = ⟨400, "Invalid user ID", none⟩ ∧
    (getUserHandler "2"
      [⟨1, .vStr "a", "h", .vStr "n", .vStr "0", "t"⟩]).status = 404 ∧
    ((getUserHandler "2"
      [⟨1, .vStr "a", "h", .vStr "n", .vStr "0", "t"⟩,
        ⟨2, .vStr "b@x", "h", .vStr "Bo", .vStr "5", "t"⟩]).status = 200 ∧
      ∃ u ∈ ([⟨1, .vStr "a", "h", .vStr "n", .vStr "0", "t"⟩,
        ⟨2, .vStr "b@x", "h", .vStr "Bo", .vStr "5", "t"⟩] : List User),
        u.id = 2 ∧
        (getUserHandler "2"
          [⟨1, .vStr "a", "h", .vStr "n", .vStr "0", "t"⟩,
            ⟨2, .vStr "b@x", "h", .vStr "Bo", .vStr "5", "t"⟩]).body =
          some ⟨u.id, u.email, u.name, u.phone⟩) := by
  refine ⟨(C4_get_user_amended "x" []).1 (by decide), ?_, ?_⟩
  · exact ((C4_get_user_amended "2"
      [⟨1, .vStr "a", "h", .vStr "n", .vStr "0", "t"⟩]).2 2 (by decide)).1
      (by decide)
  · exact ((C4_get_user_amended "2"
      [⟨1, .vStr "a", "h", .vStr "n", .vStr "0", "t"⟩,
        ⟨2, .vStr "b@x", "h", .vStr "Bo", .vStr "5", "t"⟩]).2 2
      (by decide)).2
      ⟨⟨2, .vStr "b@x", "h", .vStr "Bo", .vStr "5", "t"⟩, by decide, rfl⟩

/-! ### C6: `POST /api/signin` -/

/-- For a string password, the short-circuiting search coincides with a
plain `find?` over the email/hash-equality predicate and never throws. -/
lemma findUserJS_vStr (hash : String → String) (e : JVal) (p : String)
    (users : List User) :
    findUserJS hash e (.vStr p) users =
      .ok (users.find? (fun u => u.email == e && u.password == hash p)) := by
  induction users with
  | nil => rfl
  | cons u us ih =>
    by_cases h1 : (u.email == e) = true
    · by_cases h2 : (u.password == hash p) = true
      · rw [List.find?_cons_of_pos _ (by simp [h1, h2])]
        simp only [findUserJS, h1, if_true, h2]
      · rw [List.find?_cons_of_neg _ (by simp [h1, h2])]
        simp only [findUserJS, h1, if_true, h2, if_false]
        exact ih
    · rw [List.find?_cons_of_neg _ (by simp [h1])]
      simp only [findUserJS, h1, if_false]
      exact ih

/-- C6 counterexample: a user with email `"a@b.c"` exists and the
supplied password `""` is wrong (its hash is not the stored digest), so
by the claim the handler should respond 401; but the empty string is
falsy, so the truthiness validation answers 400 before the password is
ever compared. -/
theorem C6_counterexample :
    (signinHandler (fun s => s ++ "!")
        ⟨some (.vStr "a@b.c"), some (.vStr "")⟩
        [⟨1, .vStr "a@b.c", "HX", .vStr "Al", .vStr "1", "t"⟩]).status =
      400 ∧
    (signinHandler (fun s => s ++ "!")
        ⟨some (.vStr "a@b.c"), some (.vStr "")⟩
        [⟨1, .vStr "a@b.c", "HX", .vStr "Al", .vStr "1", "t"⟩]).status ≠
      401 ∧
    (∃ u ∈ ([⟨1, .vStr "a@b.c", "HX", .vStr "Al", .vStr "1", "t"⟩] :
        List User), u.email = .vStr "a@b.c") ∧
    "HX" ≠ (fun s => s ++ "!") "" := by
  exact ⟨by decide, by decide,
    ⟨⟨1, .vStr "a@b.c", "HX", .vStr "Al", .vStr "1", "t"⟩, by decide, rfl⟩,
    by decide⟩

/-- C6 (amended): for a truthy email value and a non-empty string
password, signin responds 200 with the userId and name of a stored user
whose email matches and whose stored digest equals the hash of the
supplied password, when such a user exists; and 401 when no stored user
with the matching email has that password hash.  (A falsy — e.g. empty —
supplied password is instead answered 400 by the validation, and a
non-string one makes the hash call throw, which the handler surfaces as
500.)  The comparison is equality of the hash of the supplied password
with the stored digest. -/
theorem C6_signin_amended :
    ∀ hash users e p, JVal.truthy e = true → p ≠ "" →
      ((∃ u ∈ users, u.email = e ∧ u.password = hash p) →
        (signinHandler hash ⟨some e, some (.vStr p)⟩ users).status = 200 ∧
        ∃ u ∈ users, u.email = e ∧ u.password = hash p ∧
          (signinHandler hash ⟨some e, some (.vStr p)⟩ users).userId =
            some u.id ∧
          (signinHandler hash ⟨some e, some (.vStr p)⟩ users).name =
            some u.name) ∧
      ((∀ u ∈ users, u.email = e → u.password ≠ hash p) →
        (signinHandler hash ⟨some e, some (.vStr p)⟩ users).status = 401) := by
  intro hash users e p he hp
  have htr : (JVal.truthy e && JVal.truthy (.vStr p)) = true := by
    rw [he]
    simp [JVal.truthy, hp]
  constructor
  · intro hex
    have hf : (users.find?
        (fun u => u.email == e && u.password == hash p)).isSome = true := by
      rw [List.find?_isSome]
      obtain ⟨u, hu, h1, h2⟩ := hex
      exact ⟨u, hu, by simp [h1, h2]⟩
    obtain ⟨w, hw⟩ := Option.isSome_iff_exists.mp hf
    have hmem := List.mem_of_find?_eq_some hw
    have hpw := List.find?_some hw
    simp only [Bool.and_eq_true, beq_iff_eq] at hpw
    have e1 : signinHandler hash ⟨some e, some (.vStr p)⟩ users =
        ⟨200, "Sign-in successful", some w.id, some w.name⟩ := by
      simp only [signinHandler]
      rw [if_pos htr, findUserJS_vStr, hw]
    rw [e1]
    exact ⟨rfl, w, hmem, hpw.1, hpw.2, rfl, rfl⟩
  · intro hall
    have hf : users.find?
        (fun u => u.email == e && u.password == hash p) = none := by
      rw [List.find?_eq_none]
      intro u hu
      by_cases h1 : u.email = e
      · simp [h1, hall u hu h1]
      · simp [h1]
    have e1 : signinHandler hash ⟨some e, some (.vStr p)⟩ users =
        ⟨401, "Invalid email or password", none, none⟩ := by
      simp only [signinHandler]
      rw [if_pos htr, findUserJS_vStr, hf]
    rw [e1]

/-- C6 witness: the amended theorem applied with the identity as the
hash function at a one-user collection: the correct password `"pw"`
yields 200 with userId 1 and name `"Al"`; the wrong password `"zz"`
yields 401. -/
theorem C6_signin_amended_witness :
    ((signinHandler (fun s => s) ⟨some (.vStr "a@b.c"), some (.vStr "pw")⟩
        [⟨1, .vStr "a@b.c", "pw", .vStr "Al", .vStr "1", "t"⟩]).status =
      200 ∧
      ∃ u ∈ ([⟨1, .vStr "a@b.c", "pw", .vStr "Al", .vStr "1", "t"⟩] :
          List User), u.email = .vStr "a@b.c" ∧ u.password = (fun s => s) "pw" ∧
        (signinHandler (fun s => s) ⟨some (.vStr "a@b.c"), some (.vStr "pw")⟩
          [⟨1, .vStr "a@b.c", "pw", .vStr "Al", .vStr "1", "t"⟩]).userId =
          some u.id ∧
        (signinHandler (fun s => s) ⟨some (.vStr "a@b.c"), some (.vStr "pw")⟩
          [⟨1, .vStr "a@b.c", "pw", .vStr "Al", .vStr "1", "t"⟩]).name =
          some u.name) ∧
    (signinHandler (fun s => s) ⟨some (.vStr "a@b.c"), some (.vStr "zz")⟩
        [⟨1, .vStr "a@b.c", "pw", .vStr "Al", .vStr "1", "t"⟩]).status =
      401 := by
  constructor
  · exact (C6_signin_amended (fun s => s)
      [⟨1, .vStr "a@b.c", "pw", .vStr "Al", .vStr "1", "t"⟩]
      (.vStr "a@b.c") "pw" (by decide) (by decide)).1
      ⟨⟨1, .vStr "a@b.c", "pw", .vStr "Al", .vStr "1", "t"⟩, by decide,
        rfl, rfl⟩
  · exact (C6_signin_amended (fun s => s)
      [⟨1, .vStr "a@b.c", "pw", .vStr "Al", .vStr "1", "t"⟩]
      (.vStr "a@b.c") "zz" (by decide) (by decide)).2 (by decide)


/-! ### Store lemmas: whitespace and token-level round trips -/

lemma skipWs_append_ws (w cs : List Char) (h : w.all isWsJ = true) :
    skipWs (w ++ cs) = skipWs cs := by
  induction w with
  | nil => rfl
  | cons c t ih =>
    simp only [List.all_cons, Bool.and_eq_true] at h
    simp only [List.cons_append, skipWs, List.dropWhile_cons, h.1, if_true]
    exact ih h.2

lemma skipWs_cons_not_ws (c : Char) (cs : List Char) (h : isWsJ c = false) :
    skipWs (c :: cs) = c :: cs := by
  simp only [skipWs, List.dropWhile_cons, h]
  rfl

lemma indentJ_ws (i : Nat) : (indentJ i).all isWsJ = true := by
  unfold indentJ
  induction 2 * i with
  | zero => rfl
  | succ n ih => simp [List.replicate_succ, isWsJ]

lemma expectL_self (pat rest : List Char) :
    expectL pat (pat ++ rest) = some rest := by
  induction pat with
  | nil => rfl
  | cons c t ih => simp [expectL, ih]

lemma takeWhile_all_append (p : Char → Bool) (l r : List Char)
    (hl : ∀ c ∈ l, p c = true) (hr : ∀ c t, r = c :: t → p c = false) :
    (l ++ r).takeWhile p = l ∧ (l ++ r).dropWhile p = r := by
  induction l with
  | nil =>
    match r with
    | [] => exact ⟨rfl, rfl⟩
    | c :: t =>
      have := hr c t rfl
      simp [List.takeWhile_cons, List.dropWhile_cons, this]
  | cons c t ih =>
    have hc := hl c (List.mem_cons_self c t)
    have iht := ih (fun x hx => hl x (List.mem_cons_of_mem c hx))
    simp [List.takeWhile_cons, List.dropWhile_cons, hc, iht.1, iht.2]

lemma digitChar10_facts (d : Nat) (h : d < 10) :
    (digitChar10 d).isDigit = true ∧ (digitChar10 d).toNat - 48 = d ∧
    isWsJ (digitChar10 d) = false ∧ digitChar10 d ≠ '"' ∧
    digitChar10 d ≠ '[' ∧ digitChar10 d ≠ '\x7b' ∧ digitChar10 d ≠ 't' ∧
    digitChar10 d ≠ 'f' ∧ digitChar10 d ≠ 'n' ∧ digitChar10 d ≠ '-' ∧
    digitChar10 d ≠ ']' ∧ digitChar10 d ≠ '\x7d' := by
  interval_cases d <;> exact ⟨rfl, rfl, rfl, by decide, by decide, by decide,
    by decide, by decide, by decide, by decide, by decide, by decide⟩

lemma printNat_spec (m : Nat) :
    (∀ c ∈ printNat m, c.isDigit = true) ∧ printNat m ≠ [] := by
  unfold printNat
  by_cases h : m = 0
  · simp only [h, if_true]
    exact ⟨by intro c hc; simp at hc; subst hc; rfl, by simp⟩
  · simp only [h, if_false]
    constructor
    · intro c hc
      obtain ⟨d, hd, rfl⟩ := List.mem_map.mp hc
      have hd10 : d < 10 :=
        Nat.digits_lt_base (by norm_num) (List.mem_reverse.mp hd)
      exact (digitChar10_facts d hd10).1
    · have : Nat.digits 10 m ≠ [] := Nat.digits_ne_nil_iff_ne_zero.mpr h
      simp [this]

lemma foldl_digitChar_map (l : List Nat) (a : Nat) (h : ∀ d ∈ l, d < 10) :
    (l.map digitChar10).foldl (fun x c => 10 * x + (c.toNat - 48)) a =
    l.foldl (fun x d => 10 * x + d) a := by
  induction l generalizing a with
  | nil => rfl
  | cons d t ih =>
    have hd := (digitChar10_facts d (h d (List.mem_cons_self d t))).2.1
    simp only [List.map_cons, List.foldl_cons, hd]
    exact ih _ (fun x hx => h x (List.mem_cons_of_mem d hx))

lemma foldr_base10_ofDigits (l : List Nat) :
    l.foldr (fun d acc => 10 * acc + d) 0 = Nat.ofDigits 10 l := by
  induction l with
  | nil => simp [Nat.ofDigits_nil]
  | cons d t ih => simp [List.foldr_cons, Nat.ofDigits_cons, ih]; omega

lemma digitVal_printNat (m : Nat) : digitVal (printNat m) = m := by
  unfold printNat
  by_cases h : m = 0
  · subst h; decide
  · simp only [h, if_false]
    unfold digitVal
    rw [foldl_digitChar_map _ _ (fun d hd =>
      Nat.digits_lt_base (by norm_num) (List.mem_reverse.mp hd))]
    rw [List.foldl_reverse]
    have : (fun (x : Nat) (y : Nat) => 10 * y + x) =
        (fun d acc => 10 * acc + d) := rfl
    rw [this, foldr_base10_ofDigits, Nat.ofDigits_digits]

lemma pNum_print (m : Nat) (rest : List Char) (hbd : numBd rest = true) :
    pNum (printNat m ++ rest) = some (m, rest) := by
  obtain ⟨hdig, hne⟩ := printNat_spec m
  cases rest with
  | nil =>
    obtain ⟨htake, hdrop⟩ := takeWhile_all_append Char.isDigit (printNat m) []
      hdig (by intro c t h; cases h)
    rw [List.append_nil] at htake hdrop
    rw [show printNat m ++ [] = printNat m from List.append_nil _]
    simp only [pNum, htake, hdrop]
    rw [if_neg hne]
    simp [digitVal_printNat]
  | cons c t =>
    simp only [numBd, Bool.not_eq_true', Bool.or_eq_false_iff,
      decide_eq_false_iff_not] at hbd
    obtain ⟨⟨⟨hcd, hdot⟩, he⟩, hE⟩ := hbd
    obtain ⟨htake, hdrop⟩ := takeWhile_all_append Char.isDigit (printNat m)
      (c :: t) hdig (by intro c' t' h; cases h; exact hcd)
    unfold pNum
    simp [htake, hdrop, hne, digitVal_printNat, hdot, he, hE]

lemma hexDigChar_facts (n : Nat) (h : n < 16) :
    isHexDigitJS (hexDigChar n) = true ∧ hexCharVal (hexDigChar n) = n := by
  interval_cases n <;> exact ⟨by decide, by decide⟩

lemma escStr_cons (c : Char) (t : List Char) :
    escStr (c :: t) = escChar c ++ escStr t := rfl

lemma pStr_esc (s rest : List Char) :
    pStr (escStr s ++ '"' :: rest) = some (s, rest) := by
  induction s with
  | nil =>
    rw [show escStr [] ++ '"' :: rest = '"' :: rest by simp [escStr]]
    rw [pStr.eq_def]
    simp
  | cons c t ih =>
    rw [escStr_cons, List.append_assoc]
    by_cases h1 : c = '"'
    · subst h1
      rw [show escChar '"' = ['\\', '"'] from rfl]
      simp only [List.cons_append, List.nil_append]
      rw [pStr.eq_def]
      simp [unescChar, ih]
    · by_cases h2 : c = '\\'
      · subst h2
        rw [show escChar '\\' = ['\\', '\\'] from rfl]
        simp only [List.cons_append, List.nil_append]
        rw [pStr.eq_def]
        simp [unescChar, ih]
      · by_cases h3 : c = '\n'
        · subst h3
          rw [show escChar '\n' = ['\\', 'n'] from rfl]
          simp only [List.cons_append, List.nil_append]
          rw [pStr.eq_def]
          simp [unescChar, ih]
        · by_cases h4 : c = '\t'
          · subst h4
            rw [show escChar '\t' = ['\\', 't'] from rfl]
            simp only [List.cons_append, List.nil_append]
            rw [pStr.eq_def]
            simp [unescChar, ih]
          · by_cases h5 : c = '\r'
            · subst h5
              rw [show escChar '\r' = ['\\', 'r'] from rfl]
              simp only [List.cons_append, List.nil_append]
              rw [pStr.eq_def]
              simp [unescChar, ih]
            · by_cases h6 : c = '\x08'
              · subst h6
                rw [show escChar '\x08' = ['\\', 'b'] from rfl]
                simp only [List.cons_append, List.nil_append]
                rw [pStr.eq_def]
                simp [unescChar, ih]
              · by_cases h7 : c = '\x0c'
                · subst h7
                  rw [show escChar '\x0c' = ['\\', 'f'] from rfl]
                  simp only [List.cons_append, List.nil_append]
                  rw [pStr.eq_def]
                  simp [unescChar, ih]
                · by_cases h8 : c.toNat < 32
                  · have he : escChar c = ['\\', 'u', '0', '0',
                        hexDigChar (c.toNat / 16), hexDigChar (c.toNat % 16)] := by
                      unfold escChar
                      rw [if_neg h1, if_neg h2, if_neg h3, if_neg h4,
                        if_neg h5, if_neg h6, if_neg h7, if_pos h8]
                    have hq : c.toNat / 16 < 16 := by omega
                    have hm : c.toNat % 16 < 16 := by omega
                    obtain ⟨hq1, hq2⟩ := hexDigChar_facts _ hq
                    obtain ⟨hm1, hm2⟩ := hexDigChar_facts _ hm
                    rw [he]
                    simp only [List.cons_append, List.nil_append]
                    rw [pStr.eq_def]
                    simp only [hq1, hm1, ih,
                      show isHexDigitJS '0' = true from by decide]
                    have hval : ((hexCharVal '0' * 16 + hexCharVal '0') * 16 +
                        hexCharVal (hexDigChar (c.toNat / 16))) * 16 +
                        hexCharVal (hexDigChar (c.toNat % 16)) = c.toNat := by
                      rw [hq2, hm2]
                      have := Nat.div_add_mod c.toNat 16
                      simp only [show hexCharVal '0' = 0 from rfl]
                      omega
                    simp [hval, Char.ofNat_toNat]
                  · have he : escChar c = [c] := by
                      unfold escChar
                      rw [if_neg h1, if_neg h2, if_neg h3, if_neg h4,
                        if_neg h5, if_neg h6, if_neg h7, if_neg h8]
                    rw [he]
                    simp only [List.cons_append, List.nil_append]
                    rw [pStr.eq_def]
                    simp [h1, h2, h8, ih]

lemma skipWs_head (w : List Char) (hw : w.all isWsJ = true) (c : Char)
    (hc : isWsJ c = false) (t : List Char) : skipWs (w ++ c :: t) = c :: t := by
  rw [skipWs_append_ws _ _ hw, skipWs_cons_not_ws _ _ hc]

lemma numBd_cons (c : Char) (t : List Char) :
    numBd (c :: t) = !(c.isDigit || c = '.' || c = 'e' || c = 'E') := rfl

lemma sizeJ_pos (v : Json) : 1 ≤ sizeJ v := by
  cases v <;> rw [sizeJ] <;> omega

lemma sizeElems_pos (xs : List Json) : 1 ≤ sizeElems xs := by
  cases xs with
  | nil => rw [sizeElems]
  | cons x t => rw [sizeElems]; omega

lemma sizeFields_pos (fs : List (List Char × Json)) : 1 ≤ sizeFields fs := by
  cases fs with
  | nil => rw [sizeFields]
  | cons f t => obtain ⟨k, v⟩ := f; rw [sizeFields]; omega

lemma pVal_null (fuel i : Nat) (w rest : List Char)
    (hw : w.all isWsJ = true) :
    pVal (fuel + 1) (w ++ strJ i .jNull ++ rest) = some (.jNull, rest) := by
  rw [strJ, List.append_assoc]
  rw [show (['n', 'u', 'l', 'l'] : List Char) ++ rest =
    'n' :: ('u' :: 'l' :: 'l' :: rest) from rfl, pVal]
  rw [skipWs_head w hw 'n' (by decide) _]
  simp only [show ('n' : Char) ≠ '"' from by decide,
    show ('n' : Char) ≠ '[' from by decide,
    show ('n' : Char) ≠ '\x7b' from by decide,
    show ('n' : Char) ≠ 't' from by decide,
    show ('n' : Char) ≠ 'f' from by decide, if_neg, if_false, reduceIte]
  rw [show 'u' :: 'l' :: 'l' :: rest = ['u', 'l', 'l'] ++ rest from rfl,
    expectL_self]

lemma pVal_bool (fuel i : Nat) (b : Bool) (w rest : List Char)
    (hw : w.all isWsJ = true) :
    pVal (fuel + 1) (w ++ strJ i (.jBool b) ++ rest) = some (.jBool b, rest) := by
  cases b
  · rw [strJ, List.append_assoc]
    rw [show (['f', 'a', 'l', 's', 'e'] : List Char) ++ rest =
      'f' :: ('a' :: 'l' :: 's' :: 'e' :: rest) from rfl, pVal]
    rw [skipWs_head w hw 'f' (by decide) _]
    simp only [show ('f' : Char) ≠ '"' from by decide,
      show ('f' : Char) ≠ '[' from by decide,
      show ('f' : Char) ≠ '\x7b' from by decide,
      show ('f' : Char) ≠ 't' from by decide, if_neg, if_false, reduceIte]
    rw [show 'a' :: 'l' :: 's' :: 'e' :: rest =
      ['a', 'l', 's', 'e'] ++ rest from rfl, expectL_self]
  · rw [strJ, List.append_assoc]
    rw [show (['t', 'r', 'u', 'e'] : List Char) ++ rest =
      't' :: ('r' :: 'u' :: 'e' :: rest) from rfl, pVal]
    rw [skipWs_head w hw 't' (by decide) _]
    simp only [show ('t' : Char) ≠ '"' from by decide,
      show ('t' : Char) ≠ '[' from by decide,
      show ('t' : Char) ≠ '\x7b' from by decide, if_neg, if_false, reduceIte]
    rw [show 'r' :: 'u' :: 'e' :: rest = ['r', 'u', 'e'] ++ rest from rfl,
      expectL_self]

lemma pVal_str (fuel i : Nat) (s : List Char) (w rest : List Char)
    (hw : w.all isWsJ = true) :
    pVal (fuel + 1) (w ++ strJ i (.jStr s) ++ rest) = some (.jStr s, rest) := by
  rw [strJ, List.append_assoc]
  rw [show ('"' :: (escStr s ++ ['"'])) ++ rest =
    '"' :: (escStr s ++ '"' :: rest) by simp, pVal]
  rw [skipWs_head w hw '"' (by decide) _]
  simp only [reduceIte]
  rw [pStr_esc]

lemma pVal_num (fuel i : Nat) (n : Int) (w rest : List Char)
    (hw : w.all isWsJ = true) (hbd : numBd rest = true) :
    pVal (fuel + 1) (w ++ strJ i (.jNum n) ++ rest) = some (.jNum n, rest) := by
  rw [strJ, List.append_assoc]
  unfold printInt
  by_cases hn : n < 0
  · rw [if_pos hn]
    rw [show ('-' :: printNat n.natAbs) ++ rest =
      '-' :: (printNat n.natAbs ++ rest) from rfl, pVal]
    rw [skipWs_head w hw '-' (by decide) _]
    simp only [show ('-' : Char) ≠ '"' from by decide,
      show ('-' : Char) ≠ '[' from by decide,
      show ('-' : Char) ≠ '\x7b' from by decide,
      show ('-' : Char) ≠ 't' from by decide,
      show ('-' : Char) ≠ 'f' from by decide,
      show ('-' : Char) ≠ 'n' from by decide, if_neg, if_false, reduceIte]
    rw [pNum_print _ _ hbd]
    simp only [Option.some.injEq, Prod.mk.injEq, Json.jNum.injEq]
    exact ⟨by omega, trivial⟩
  · rw [if_neg hn]
    have hd : ∃ d t, printNat n.natAbs = d :: t ∧ d.isDigit = true ∧
        isWsJ d = false ∧ d ≠ '"' ∧ d ≠ '[' ∧ d ≠ '\x7b' ∧ d ≠ 't' ∧
        d ≠ 'f' ∧ d ≠ 'n' ∧ d ≠ '-' := by
      unfold printNat
      by_cases hm : n.natAbs = 0
      · refine ⟨'0', [], by simp [hm], by decide, by decide, by decide,
          by decide, by decide, by decide, by decide, by decide⟩
      · simp only [hm, if_false]
        have hnn : Nat.digits 10 n.natAbs ≠ [] :=
          Nat.digits_ne_nil_iff_ne_zero.mpr hm
        match hrev : (Nat.digits 10 n.natAbs).reverse with
        | [] => exact absurd (by simpa using hrev) hnn
        | d0 :: l =>
          have hmem : d0 ∈ Nat.digits 10 n.natAbs := by
            rw [← List.mem_reverse, hrev]
            exact List.mem_cons_self _ _
          have h10 := Nat.digits_lt_base (by norm_num) hmem
          obtain ⟨f1, f2, f3, f4, f5, f6, f7, f8, f9, f10, f11, f12⟩ :=
            digitChar10_facts d0 h10
          exact ⟨digitChar10 d0, l.map digitChar10, rfl,
            f1, f3, f4, f5, f6, f7, f8, f9, f10⟩
    obtain ⟨d, t, hp, hdd, hws, hq, hlb, hob, ht, hf, hnc, hmi⟩ := hd
    rw [hp]
    rw [show (d :: t) ++ rest = d :: (t ++ rest) from rfl, pVal]
    rw [skipWs_head w hw d hws _]
    simp only [hq, hlb, hob, ht, hf, hnc, hmi, if_neg, if_false, reduceIte,
      hdd, if_true]
    rw [show d :: (t ++ rest) = (d :: t) ++ rest from rfl, ← hp,
      pNum_print _ _ hbd]
    simp only [Option.some.injEq, Prod.mk.injEq, Json.jNum.injEq]
    exact ⟨by omega, trivial⟩

lemma printNat_head (m : Nat) :
    ∃ d0 t, printNat m = digitChar10 d0 :: t ∧ d0 < 10 := by
  unfold printNat
  by_cases hm : m = 0
  · exact ⟨0, [], by simp [hm]; decide, by omega⟩
  · simp only [hm, if_false]
    have hnn : Nat.digits 10 m ≠ [] := Nat.digits_ne_nil_iff_ne_zero.mpr hm
    match hrev : (Nat.digits 10 m).reverse with
    | [] => exact absurd (by simpa using hrev) hnn
    | d0 :: l =>
      have hmem : d0 ∈ Nat.digits 10 m := by
        rw [← List.mem_reverse, hrev]
        exact List.mem_cons_self _ _
      exact ⟨d0, l.map digitChar10, rfl,
        Nat.digits_lt_base (by norm_num) hmem⟩

lemma strJ_head (i : Nat) (v : Json) :
    ∃ c t, strJ i v = c :: t ∧ isWsJ c = false ∧ c ≠ ']' ∧ c ≠ '\x7d' := by
  match v with
  | .jNull => exact ⟨'n', _, by rw [strJ], by decide, by decide, by decide⟩
  | .jBool true => exact ⟨'t', _, by rw [strJ], by decide, by decide, by decide⟩
  | .jBool false =>
    exact ⟨'f', _, by rw [strJ], by decide, by decide, by decide⟩
  | .jStr s =>
    exact ⟨'"', escStr s ++ ['"'], by rw [strJ], by decide, by decide,
      by decide⟩
  | .jArr [] => exact ⟨'[', [']'], by rw [strJ], by decide, by decide, by decide⟩
  | .jArr (x :: xs) =>
    exact ⟨'[', _, by rw [strJ], by decide, by decide, by decide⟩
  | .jObj [] =>
    exact ⟨'\x7b', ['\x7d'], by rw [strJ], by decide, by decide, by decide⟩
  | .jObj ((k, v0) :: fs) =>
    exact ⟨'\x7b', _, by rw [strJ], by decide, by decide, by decide⟩
  | .jNum n =>
    by_cases hn : n < 0
    · refine ⟨'-', printNat n.natAbs, ?_, by decide, by decide, by decide⟩
      rw [strJ]
      unfold printInt
      rw [if_pos hn]
    · obtain ⟨d0, t, hp, h10⟩ := printNat_head n.natAbs
      obtain ⟨f1, f2, f3, f4, f5, f6, f7, f8, f9, f10, f11, f12⟩ :=
        digitChar10_facts d0 h10
      refine ⟨digitChar10 d0, t, ?_, f3, f11, f12⟩
      rw [strJ]
      unfold printInt
      rw [if_neg hn, hp]

lemma numBd_strElems (i : Nat) (xs : List Json) (z : List Char) :
    numBd (strElems i xs ++ '\n' :: z) = true := by
  cases xs with
  | nil =>
    rw [strElems, List.nil_append, numBd_cons]
    decide
  | cons y ys =>
    rw [strElems, List.cons_append, numBd_cons]
    decide

lemma numBd_strFields (i : Nat) (fs : List (List Char × Json))
    (z : List Char) : numBd (strFields i fs ++ '\n' :: z) = true := by
  cases fs with
  | nil =>
    rw [strFields, List.nil_append, numBd_cons]
    decide
  | cons f t =>
    obtain ⟨k, v⟩ := f
    rw [strFields, List.cons_append, numBd_cons]
    decide

lemma ws_nl_indent (i : Nat) : ('\n' :: indentJ i).all isWsJ = true := by
  simp only [List.all_cons, Bool.and_eq_true]
  exact ⟨by decide, indentJ_ws i⟩
set_option maxHeartbeats 1000000 in
lemma parse_print_rt (fuel : Nat) :
    (∀ i v w rest, w.all isWsJ = true → sizeJ v ≤ fuel → numBd rest = true →
      pVal fuel (w ++ strJ i v ++ rest) = some (v, rest)) ∧
    (∀ i x xs w rest, w.all isWsJ = true → sizeElems (x :: xs) ≤ fuel →
      pElems fuel (w ++ strJ (i + 1) x ++
        (strElems i xs ++ '\n' :: (indentJ i ++ ']' :: rest))) =
        some (x :: xs, rest)) ∧
    (∀ i k v fs w rest, w.all isWsJ = true →
      sizeFields ((k, v) :: fs) ≤ fuel →
      pFields fuel (w ++ ('"' :: (escStr k ++ '"' :: ':' :: ' ' ::
        strJ (i + 1) v)) ++
        (strFields i fs ++ '\n' :: (indentJ i ++ '\x7d' :: rest))) =
        some ((k, v) :: fs, rest)) := by
  induction fuel with
  | zero =>
    refine ⟨?_, ?_, ?_⟩
    · intro i v w rest _ hs _
      have := sizeJ_pos v
      omega
    · intro i x xs w rest _ hs
      rw [sizeElems] at hs
      omega
    · intro i k v fs w rest _ hs
      rw [sizeFields] at hs
      omega
  | succ f ih =>
    obtain ⟨ihv, ihe, ihf⟩ := ih
    refine ⟨?_, ?_, ?_⟩
    · intro i v w rest hw hs hbd
      match v with
      | .jNull => exact pVal_null f i w rest hw
      | .jBool b => exact pVal_bool f i b w rest hw
      | .jNum n => exact pVal_num f i n w rest hw hbd
      | .jStr s => exact pVal_str f i s w rest hw
      | .jArr [] =>
        rw [strJ, List.append_assoc]
        rw [show (['[', ']'] : List Char) ++ rest = '[' :: (']' :: rest)
          from rfl, pVal]
        rw [skipWs_head w hw '[' (by decide) _]
        simp only [show ('[' : Char) ≠ '"' from by decide, if_neg, if_false,
          reduceIte]
        rw [skipWs_cons_not_ws ']' rest (by decide)]
        simp
      | .jArr (x :: xs) =>
        rw [sizeJ, sizeElems] at hs
        rw [strJ, List.append_assoc]
        rw [show ('[' :: '\n' :: (indentJ (i + 1) ++ (strJ (i + 1) x ++
            (strElems i xs ++ '\n' :: (indentJ i ++ [']']))))) ++ rest =
          '[' :: '\n' :: (indentJ (i + 1) ++ (strJ (i + 1) x ++
            (strElems i xs ++ '\n' :: (indentJ i ++ (']' :: rest)))))
          by simp]
        rw [pVal]
        rw [skipWs_head w hw '[' (by decide) _]
        simp only [show ('[' : Char) ≠ '"' from by decide, if_neg, if_false,
          reduceIte]
        obtain ⟨c0, t0, hx, hxw, hxb, hxo⟩ := strJ_head (i + 1) x
        have hskip : skipWs ('\n' :: (indentJ (i + 1) ++ (strJ (i + 1) x ++
            (strElems i xs ++ '\n' :: (indentJ i ++ (']' :: rest)))))) =
            c0 :: (t0 ++ (strElems i xs ++ '\n' ::
              (indentJ i ++ (']' :: rest)))) := by
          rw [show ('\n' :: (indentJ (i + 1) ++ (strJ (i + 1) x ++
              (strElems i xs ++ '\n' :: (indentJ i ++ (']' :: rest)))))) =
            ('\n' :: indentJ (i + 1)) ++ (strJ (i + 1) x ++
              (strElems i xs ++ '\n' :: (indentJ i ++ (']' :: rest))))
            from rfl]
          rw [skipWs_append_ws _ _ (ws_nl_indent (i + 1)), hx,
            List.cons_append]
          exact skipWs_cons_not_ws _ _ hxw
        rw [hskip]
        simp only [if_neg hxb]
        have her := ihe i x xs ('\n' :: indentJ (i + 1)) rest
          (ws_nl_indent (i + 1)) (by rw [sizeElems]; omega)
        rw [show ('\n' :: (indentJ (i + 1) ++ (strJ (i + 1) x ++
            (strElems i xs ++ '\n' :: (indentJ i ++ (']' :: rest)))))) =
          ('\n' :: indentJ (i + 1)) ++ strJ (i + 1) x ++
            (strElems i xs ++ '\n' :: (indentJ i ++ ']' :: rest))
          by simp]
        rw [her]
      | .jObj [] =>
        rw [strJ, List.append_assoc]
        rw [show (['\x7b', '\x7d'] : List Char) ++ rest =
          '\x7b' :: ('\x7d' :: rest) from rfl, pVal]
        rw [skipWs_head w hw '\x7b' (by decide) _]
        simp only [show ('\x7b' : Char) ≠ '"' from by decide,
          show ('\x7b' : Char) ≠ '[' from by decide, if_neg, if_false,
          reduceIte]
        rw [skipWs_cons_not_ws '\x7d' rest (by decide)]
        simp
      | .jObj ((k, v0) :: fs) =>
        rw [sizeJ, sizeFields] at hs
        rw [strJ, List.append_assoc]
        rw [show ('\x7b' :: '\n' :: (indentJ (i + 1) ++
            ('"' :: (escStr k ++ '"' :: ':' :: ' ' :: strJ (i + 1) v0)) ++
            (strFields i fs ++ '\n' :: (indentJ i ++ ['\x7d']))) ++ rest) =
          '\x7b' :: '\n' :: ((indentJ (i + 1) ++
            ('"' :: (escStr k ++ '"' :: ':' :: ' ' :: strJ (i + 1) v0))) ++
            (strFields i fs ++ '\n' :: (indentJ i ++ ('\x7d' :: rest))))
          by simp]
        rw [pVal]
        rw [skipWs_head w hw '\x7b' (by decide) _]
        simp only [show ('\x7b' : Char) ≠ '"' from by decide,
          show ('\x7b' : Char) ≠ '[' from by decide, if_neg, if_false,
          reduceIte]
        have hskip : skipWs ('\n' :: ((indentJ (i + 1) ++
            ('"' :: (escStr k ++ '"' :: ':' :: ' ' :: strJ (i + 1) v0))) ++
            (strFields i fs ++ '\n' :: (indentJ i ++ ('\x7d' :: rest))))) =
            '"' :: ((escStr k ++ '"' :: ':' :: ' ' :: strJ (i + 1) v0) ++
              (strFields i fs ++ '\n' :: (indentJ i ++ ('\x7d' :: rest)))) := by
          rw [show ('\n' :: ((indentJ (i + 1) ++
              ('"' :: (escStr k ++ '"' :: ':' :: ' ' :: strJ (i + 1) v0))) ++
              (strFields i fs ++ '\n' :: (indentJ i ++ ('\x7d' :: rest))))) =
            ('\n' :: indentJ (i + 1)) ++
              ('"' :: ((escStr k ++ '"' :: ':' :: ' ' :: strJ (i + 1) v0) ++
              (strFields i fs ++ '\n' :: (indentJ i ++ ('\x7d' :: rest)))))
            by simp]
          rw [skipWs_append_ws _ _ (ws_nl_indent (i + 1))]
          exact skipWs_cons_not_ws _ _ (by decide)
        rw [hskip]
        simp only [if_neg (show ('"' : Char) ≠ '\x7d' from by decide)]
        have hff := ihf i k v0 fs ('\n' :: indentJ (i + 1)) rest
          (ws_nl_indent (i + 1)) (by rw [sizeFields]; omega)
        rw [show ('\n' :: ((indentJ (i + 1) ++
            ('"' :: (escStr k ++ '"' :: ':' :: ' ' :: strJ (i + 1) v0))) ++
            (strFields i fs ++ '\n' :: (indentJ i ++ ('\x7d' :: rest))))) =
          ('\n' :: indentJ (i + 1)) ++
            ('"' :: (escStr k ++ '"' :: ':' :: ' ' :: strJ (i + 1) v0)) ++
            (strFields i fs ++ '\n' :: (indentJ i ++ '\x7d' :: rest))
          by simp]
        rw [hff]
    · intro i x xs w rest hw hs
      rw [sizeElems] at hs
      rw [pElems]
      cases xs with
      | nil =>
        rw [strElems, List.nil_append]
        have hv := ihv (i + 1) x w ('\n' :: (indentJ i ++ ']' :: rest)) hw
          (by omega) (by rw [numBd_cons]; decide)
        simp only [hv]
        rw [show ('\n' :: (indentJ i ++ ']' :: rest)) =
          ('\n' :: indentJ i) ++ (']' :: rest) from rfl]
        rw [skipWs_append_ws _ _ (ws_nl_indent i),
          skipWs_cons_not_ws ']' _ (by decide)]
        simp
      | cons y ys =>
        rw [strElems, List.cons_append, List.cons_append]
        have hv := ihv (i + 1) x w
          (',' :: ('\n' :: ((indentJ (i + 1) ++
            (strJ (i + 1) y ++ strElems i ys)) ++
            ('\n' :: (indentJ i ++ ']' :: rest))))) hw
          (by have := sizeElems_pos (y :: ys); omega)
          (by rw [numBd_cons]; decide)
        simp only [hv]
        rw [skipWs_cons_not_ws ',' _ (by decide)]
        simp only [reduceIte]
        have he2 := ihe i y ys ('\n' :: indentJ (i + 1)) rest
          (ws_nl_indent (i + 1)) (by have := sizeJ_pos x; omega)
        rw [show ('\n' :: ((indentJ (i + 1) ++
            (strJ (i + 1) y ++ strElems i ys)) ++
            ('\n' :: (indentJ i ++ ']' :: rest)))) =
          ('\n' :: indentJ (i + 1)) ++ strJ (i + 1) y ++
            (strElems i ys ++ '\n' :: (indentJ i ++ ']' :: rest)) by simp]
        rw [he2]
    · intro i k v fs w rest hw hs
      rw [sizeFields] at hs
      rw [pFields]
      rw [List.append_assoc]
      rw [show ('"' :: (escStr k ++ '"' :: ':' :: ' ' :: strJ (i + 1) v)) ++
          (strFields i fs ++ '\n' :: (indentJ i ++ '\x7d' :: rest)) =
        '"' :: ((escStr k ++ '"' :: ':' :: ' ' :: strJ (i + 1) v) ++
          (strFields i fs ++ '\n' :: (indentJ i ++ '\x7d' :: rest)))
        from rfl]
      rw [skipWs_head w hw '"' (by decide)]
      simp only [reduceIte]
      rw [show (escStr k ++ '"' :: ':' :: ' ' :: strJ (i + 1) v) ++
          (strFields i fs ++ '\n' :: (indentJ i ++ '\x7d' :: rest)) =
        escStr k ++ '"' :: (':' :: ' ' :: (strJ (i + 1) v ++
          (strFields i fs ++ '\n' :: (indentJ i ++ '\x7d' :: rest))))
        by simp]
      rw [pStr_esc]
      simp only []
      rw [skipWs_cons_not_ws ':' _ (by decide)]
      simp only [reduceIte]
      have hv := ihv (i + 1) v [' ']
        (strFields i fs ++ '\n' :: (indentJ i ++ '\x7d' :: rest))
        (by decide) (by have := sizeFields_pos fs; omega)
        (numBd_strFields i fs _)
      rw [show (' ' :: (strJ (i + 1) v ++
          (strFields i fs ++ '\n' :: (indentJ i ++ '\x7d' :: rest)))) =
        [' '] ++ strJ (i + 1) v ++
          (strFields i fs ++ '\n' :: (indentJ i ++ '\x7d' :: rest))
        by simp]
      simp only [hv]
      cases fs with
      | nil =>
        rw [strFields, List.nil_append]
        rw [show ('\n' :: (indentJ i ++ '\x7d' :: rest)) =
          ('\n' :: indentJ i) ++ ('\x7d' :: rest) from rfl]
        rw [skipWs_append_ws _ _ (ws_nl_indent i),
          skipWs_cons_not_ws '\x7d' _ (by decide)]
        simp
      | cons f2 fs2 =>
        obtain ⟨k2, v2⟩ := f2
        rw [strFields, List.cons_append, List.cons_append]
        rw [skipWs_cons_not_ws ',' _ (by decide)]
        simp only [reduceIte]
        have hf2 := ihf i k2 v2 fs2 ('\n' :: indentJ (i + 1)) rest
          (ws_nl_indent (i + 1)) (by have := sizeJ_pos v; omega)
        rw [show ('\n' :: (((indentJ (i + 1) ++
            ('"' :: (escStr k2 ++ '"' :: ':' :: ' ' :: strJ (i + 1) v2))) ++
            strFields i fs2) ++
            ('\n' :: (indentJ i ++ '\x7d' :: rest)))) =
          ('\n' :: indentJ (i + 1)) ++
            ('"' :: (escStr k2 ++ '"' :: ':' :: ' ' :: strJ (i + 1) v2)) ++
            (strFields i fs2 ++ '\n' :: (indentJ i ++ '\x7d' :: rest))
          by simp]
        rw [hf2]

lemma indentJ_len (i : Nat) : (indentJ i).length = 2 * i := by
  simp [indentJ]

lemma size_le_length (k : Nat) :
    (∀ v i, sizeJ v ≤ k → sizeJ v ≤ (strJ i v).length + 1) ∧
    (∀ xs i, sizeElems xs ≤ k → sizeElems xs ≤ (strElems i xs).length + 1) ∧
    (∀ fs i, sizeFields fs ≤ k →
      sizeFields fs ≤ (strFields i fs).length + 1) := by
  induction k with
  | zero =>
    refine ⟨?_, ?_, ?_⟩
    · intro v i hs
      have := sizeJ_pos v
      omega
    · intro xs i hs
      have := sizeElems_pos xs
      omega
    · intro fs i hs
      have := sizeFields_pos fs
      omega
  | succ k ih =>
    obtain ⟨ihv, ihe, ihf⟩ := ih
    refine ⟨?_, ?_, ?_⟩
    · intro v i hs
      match v with
      | .jNull => rw [sizeJ]; omega
      | .jBool b => rw [sizeJ]; omega
      | .jNum n => rw [sizeJ]; omega
      | .jStr s => rw [sizeJ]; omega
      | .jArr [] => rw [sizeJ, sizeElems, strJ]; simp
      | .jArr (x :: xs) =>
        rw [sizeJ, sizeElems] at hs ⊢
        have h1 := ihv x (i + 1) (by have := sizeElems_pos xs; omega)
        have h2 := ihe xs i (by have := sizeJ_pos x; omega)
        rw [strJ]
        simp only [List.length_cons, List.length_append, indentJ_len]
        omega
      | .jObj [] => rw [sizeJ, sizeFields, strJ]; simp
      | .jObj ((k0, v0) :: fs) =>
        rw [sizeJ, sizeFields] at hs ⊢
        have h1 := ihv v0 (i + 1) (by have := sizeFields_pos fs; omega)
        have h2 := ihf fs i (by have := sizeJ_pos v0; omega)
        rw [strJ]
        simp only [List.length_cons, List.length_append, indentJ_len]
        omega
    · intro xs i hs
      match xs with
      | [] => rw [sizeElems, strElems]; simp
      | x :: t =>
        rw [sizeElems] at hs ⊢
        have h1 := ihv x (i + 1) (by have := sizeElems_pos t; omega)
        have h2 := ihe t i (by have := sizeJ_pos x; omega)
        rw [strElems]
        simp only [List.length_cons, List.length_append, indentJ_len]
        omega
    · intro fs i hs
      match fs with
      | [] => rw [sizeFields, strFields]; simp
      | (k0, v0) :: t =>
        rw [sizeFields] at hs ⊢
        have h1 := ihv v0 (i + 1) (by have := sizeFields_pos t; omega)
        have h2 := ihf t i (by have := sizeJ_pos v0; omega)
        rw [strFields]
        simp only [List.length_cons, List.length_append, indentJ_len]
        omega

lemma strJ_ne_nil (i : Nat) (v : Json) : strJ i v ≠ [] := by
  obtain ⟨c, t, h, _, _, _⟩ := strJ_head i v
  simp [h]

lemma parseJson_strJ (v : Json) : parseJson (strJ 0 v) = some v := by
  unfold parseJson
  have hsz : sizeJ v ≤ (strJ 0 v).length + 1 :=
    (size_le_length (sizeJ v)).1 v 0 le_rfl
  have h := (parse_print_rt ((strJ 0 v).length + 1)).1 0 v [] [] rfl hsz rfl
  rw [List.nil_append, List.append_nil] at h
  rw [h]
  simp [skipWs]


/-- C8: for every file-system state, collection file name and snapshot,
saving the snapshot via the store and then loading the same collection
yields a structurally equal snapshot — load after save is the identity
on snapshots. -/
theorem C8_save_load_roundtrip :
    ∀ (fsState : String → Option (List Char)) (file : String) (v : Json),
      loadData (saveData fsState file v) file = v := by
  intro fsState file v
  have h1 : saveData fsState file v file = some (strJ 0 v) := by
    unfold saveData
    rw [if_pos rfl]
  unfold loadData
  rw [h1]
  simp only [if_neg (strJ_ne_nil 0 v), parseJson_strJ]

/-- C5: `loadData` never raises: for every collection name, an absent or
unreadable store (`none`), an empty store, and unparsable content all
yield the empty collection — the empty object (mapping) for
`services.json` and the empty array for every other collection. -/
theorem C5_load_degrades_to_empty :
    ∀ (fsState : String → Option (List Char)) (file : String),
      (fsState file = none → loadData fsState file = emptyFor file) ∧
      (fsState file = some [] → loadData fsState file = emptyFor file) ∧
      (∀ s, fsState file = some s → parseJson s = none →
        loadData fsState file = emptyFor file) ∧
      emptyFor "services.json" = Json.jObj [] ∧
      (file ≠ "services.json" → emptyFor file = Json.jArr []) := by
  intro fsState file
  refine ⟨?_, ?_, ?_, ?_, ?_⟩
  · intro h
    unfold loadData
    rw [h]
  · intro h
    unfold loadData
    rw [h]
    simp
  · intro s hs hp
    unfold loadData
    rw [hs]
    by_cases hnil : s = []
    · simp [hnil]
    · simp only [if_neg hnil, hp]
  · unfold emptyFor
    simp
  · intro h
    unfold emptyFor
    rw [if_neg h]

/-- C5 witness: an absent `users.json` store loads as the empty array;
an empty `bookings.json` store loads as the empty array; unparsable
content `"x"` in `users.json` loads as the empty array; the services
fallback is the empty mapping. -/
theorem C5_load_degrades_to_empty_witness :
    loadData (fun _ => none) "users.json" = emptyFor "users.json" ∧
    loadData (fun _ => some []) "bookings.json" = emptyFor "bookings.json" ∧
    loadData (fun _ => some ['x']) "users.json" = emptyFor "users.json" ∧
    emptyFor "services.json" = Json.jObj [] ∧
    emptyFor "users.json" = Json.jArr [] := by
  refine ⟨?_, ?_, ?_, ?_, ?_⟩
  · exact (C5_load_degrades_to_empty (fun _ => none) "users.json").1 rfl
  · exact (C5_load_degrades_to_empty (fun _ => some [])
      "bookings.json").2.1 rfl
  · exact (C5_load_degrades_to_empty (fun _ => some ['x'])
      "users.json").2.2.1 ['x'] rfl
      (Option.isNone_iff_eq_none.mp (by decide))
  · exact (C5_load_degrades_to_empty (fun _ => none)
      "services.json").2.2.2.1
  · exact (C5_load_degrades_to_empty (fun _ => none) "users.json").2.2.2.2
      (by decide)
